import Mathlib

/-!
Verification of the pair-sampling and distance-aggregation logic of
`src/one_shot_learning/keras/siamese_mnist.py`.

The Python functions are shallowly embedded as executable Lean definitions:

* numpy arrays of indices become `List Nat`; image arrays become a total
  function `Nat → α` (image contents are irrelevant to the claims, and the
  indices fed to the image array always come from label positions);
* floating-point scores become `ℚ` (the claims are about comparison and
  selection logic, not rounding);
* `np.random.randint(lo, hi)` is modelled by `randint lo hi v` where `v` is
  the next value of an explicit random stream: the result is `lo + v % (hi - lo)`,
  which ranges exactly over `[lo, hi)`, the support of the numpy call;
* a Python `IndexError` / `ValueError` is modelled by `Option`: `none` means
  the original program raises.
-/

/-- Constant `NUM_CLASSES = 10` (siamese_mnist.py line 22). -/
def NUM_CLASSES : Nat := 10

/-- Constant `DISTANCE_THRESHOLD = 0.50` (siamese_mnist.py line 21). -/
def DISTANCE_THRESHOLD : ℚ := 1/2

/-- Model of `np.random.randint(lo, hi)` consuming one raw stream value `v`:
the result `lo + v % (hi - lo)` ranges exactly over `[lo, hi)` when `lo < hi`.
(For `lo = hi` numpy raises; call sites guard that case separately.) -/
def randint (lo hi v : Nat) : Nat := lo + v % (hi - lo)

/-- Helper for `np.where(labels == i)[0]`: positions (starting at `z`) of the
elements of the list that equal `i`, in increasing order. -/
def whereGo (i : Nat) : Nat → List Nat → List Nat
  | _, [] => []
  | z, v :: rest => if v = i then z :: whereGo i (z + 1) rest else whereGo i (z + 1) rest

/-- Model of `np.where(labels == i)[0]` (siamese_mnist.py line 229). -/
def np_where (labels : List Nat) (i : Nat) : List Nat := whereGo i 0 labels

/-- `get_digit_indices(labels, examples_per_class)` (siamese_mnist.py lines 228-230):
for each class `i < NUM_CLASSES`, the positions of the examples labeled `i`,
truncated to the first `examples_per_class` of them. -/
def get_digit_indices (labels : List Nat) (examples_per_class : Nat) : List (List Nat) :=
  (List.range NUM_CLASSES).map (fun i => (np_where labels i).take examples_per_class)

/-- Model of `n = min([len(digit_indices[d]) for d in range(NUM_CLASSES)])`
(siamese_mnist.py line 54): minimum pool length over the `NUM_CLASSES` classes. -/
def minPoolLen (di : List (List Nat)) : Nat :=
  ((List.range NUM_CLASSES).map (fun d => (di.getD d []).length)).foldr
    min ((di.getD 0 []).length)

/-- The iteration space of `create_pairs` (siamese_mnist.py lines 55-57):
triples `(d, i, j)` with `d < NUM_CLASSES`, `0 ≤ i < j < n`, in loop order. -/
def pairSteps (n : Nat) : List (Nat × Nat × Nat) :=
  (List.range NUM_CLASSES).flatMap (fun d =>
    (List.range (n - 1)).flatMap (fun i =>
      (List.range' (i + 1) (n - 1 - i)).map (fun j => (d, i, j))))

/-- One iteration of the inner loop body of `create_pairs`
(siamese_mnist.py lines 58-65) at step `s = (d, i, j)`, consuming the `t`-th
pair of raw random values: the positive pair `(x[pool[d][i]], x[pool[d][j]])`
followed by the negative pair `(x[pool[d][i]], x[pool[dn][rand_idx]])` where
`rand_inc = randint(1, NUM_CLASSES)`, `rand_idx = randint(0, len(pool[d]))`
and `dn = (d + rand_inc) % NUM_CLASSES`.  Returns `none` when the original
code raises (`randint` on an empty pool, or `pool[dn][rand_idx]` out of
bounds — note the code draws `rand_idx` bounded by `len(digit_indices[d])`,
the source class's pool, yet indexes `digit_indices[dn]` with it). -/
def stepPairs {α : Type} (x : Nat → α) (di : List (List Nat)) (rnd : Nat → Nat × Nat)
    (t : Nat) (s : Nat × Nat × Nat) : Option (List (α × α)) :=
  if (di.getD s.1 []).length = 0 then none
  else
    match (di.getD ((s.1 + randint 1 NUM_CLASSES (rnd t).1) % NUM_CLASSES) []).get?
        (randint 0 (di.getD s.1 []).length (rnd t).2) with
    | none => none
    | some z2n =>
      some [(x ((di.getD s.1 []).getD s.2.1 0), x ((di.getD s.1 []).getD s.2.2 0)),
            (x ((di.getD s.1 []).getD s.2.1 0), x z2n)]

/-- The loop of `create_pairs` over its iteration space: accumulates the pairs
and the labels `1, 0` appended at each step (siamese_mnist.py lines 55-66),
aborting with `none` as soon as a step raises. -/
def goPairs {α : Type} (x : Nat → α) (di : List (List Nat)) (rnd : Nat → Nat × Nat) :
    Nat → List (Nat × Nat × Nat) → Option (List (α × α) × List Nat)
  | _, [] => some ([], [])
  | t, s :: rest =>
    match stepPairs x di rnd t s, goPairs x di rnd (t + 1) rest with
    | some ps, some (prest, lrest) => some (ps ++ prest, 1 :: 0 :: lrest)
    | _, _ => none

/-- `create_pairs(x, digit_indices)` (siamese_mnist.py lines 48-67), with the
random stream made explicit.  `some (pairs, labels)` on normal return, `none`
when the original code raises. -/
def create_pairs {α : Type} (x : Nat → α) (di : List (List Nat))
    (rnd : Nat → Nat × Nat) : Option (List (α × α) × List Nat) :=
  goPairs x di rnd 0 (pairSteps (minPoolLen di))

/-- The label sequence produced by `m` iterations of the `create_pairs` loop:
`[1, 0]` repeated `m` times. -/
def altLabels : Nat → List Nat
  | 0 => []
  | m + 1 => 1 :: 0 :: altLabels m

/-- `contrastive_loss(y_true, y_pred)` (siamese_mnist.py lines 38-45), read
elementwise over two aligned batches: with `margin = 1`,
`mean(y_true * y_pred² + (1 - y_true) * max(margin - y_pred, 0)²)`. -/
def contrastive_loss (y_true y_pred : List ℚ) : ℚ :=
  (List.zipWith
      (fun t p => t * p ^ 2 + (1 - t) * max ((1 : ℚ) - p) 0 ^ 2) y_true y_pred).sum /
    ((List.zipWith
      (fun t p => t * p ^ 2 + (1 - t) * max ((1 : ℚ) - p) 0 ^ 2) y_true y_pred).length : ℚ)

/-- The per-pair loss the spec describes: `score²` for a pair labeled 1 and
`max(1 - score, 0)²` for a pair labeled 0, margin = 1.  (Spec §4.2.) -/
def specContrastiveTerm (t s : ℚ) : ℚ := t * s ^ 2 + (1 - t) * max (1 - s) 0 ^ 2

/-- `compute_accuracy(y_true, y_pred)` (siamese_mnist.py lines 215-219):
`pred = y_pred < DISTANCE_THRESHOLD` elementwise, then the mean of the
elementwise test `pred == y_true` (numpy promotes the boolean to `1.0/0.0`
before comparing it with the label). -/
def compute_accuracy (y_true y_pred : List ℚ) : ℚ :=
  ((List.zipWith
      (fun p t => if (if p < DISTANCE_THRESHOLD then (1 : ℚ) else 0) = t then (1 : ℚ) else 0)
      y_pred y_true).sum) /
    ((List.zipWith
      (fun p t => if (if p < DISTANCE_THRESHOLD then (1 : ℚ) else 0) = t then (1 : ℚ) else 0)
      y_pred y_true).length : ℚ)

/-- The `acc` metric (siamese_mnist.py lines 222-225):
`mean(equal(y_true, cast(y_pred < DISTANCE_THRESHOLD, y_true.dtype)))`. -/
def acc (y_true y_pred : List ℚ) : ℚ :=
  ((List.zipWith
      (fun t p => if t = (if p < DISTANCE_THRESHOLD then (1 : ℚ) else 0) then (1 : ℚ) else 0)
      y_true y_pred).sum) /
    ((List.zipWith
      (fun t p => if t = (if p < DISTANCE_THRESHOLD then (1 : ℚ) else 0) then (1 : ℚ) else 0)
      y_true y_pred).length : ℚ)

/-- Number of positions where `(score < DISTANCE_THRESHOLD) == label`, the
quantity whose fraction the spec says `compute_accuracy` returns (§4.4). -/
def matchCount (y_true y_pred : List ℚ) : Nat :=
  ((List.zipWith
      (fun p t => decide ((if p < DISTANCE_THRESHOLD then (1 : ℚ) else 0) = t))
      y_pred y_true).filter (fun b => b)).length

/-- Model of `np.min` on a nonempty score list (siamese_mnist.py line 444). -/
def npMin : List ℚ → ℚ
  | [] => 0
  | v :: rest => rest.foldl min v

/-- Model of `np.mean` on a score list (siamese_mnist.py line 454). -/
def npMean (l : List ℚ) : ℚ := l.sum / (l.length : ℚ)

/-- Model of `np.median` on a score list (siamese_mnist.py line 449): sort,
then take the middle element (odd length) or the average of the two middle
elements (even length). -/
def npMedian (l : List ℚ) : ℚ :=
  if l.length % 2 = 1 then (l.insertionSort (· ≤ ·)).getD (l.length / 2) 0
  else ((l.insertionSort (· ≤ ·)).getD (l.length / 2 - 1) 0 +
        (l.insertionSort (· ≤ ·)).getD (l.length / 2) 0) / 2

/-- The running-best state of the aggregation classifier
(siamese_mnist.py lines 421-433): per aggregation policy (MIN, MEDIAN, MEAN),
the best aggregate value so far and the class that produced it
(`-1` = invalid class marker). -/
structure AggState where
  minV : ℚ
  minL : Int
  medV : ℚ
  medL : Int
  meanV : ℚ
  meanL : Int
deriving DecidableEq

/-- One iteration of the per-class loop of the aggregation classifier
(siamese_mnist.py lines 444-457) for class `d` whose reference pairs scored
`preds`: each of the three aggregates updates its own running best exactly
when `assessment_criteria new prev` holds. -/
def aggStep (cmp : ℚ → ℚ → Bool) (st : AggState) (d : Nat) (preds : List ℚ) : AggState :=
  let st1 := if cmp (npMin preds) st.minV then
      { st with minV := npMin preds, minL := (d : Int) } else st
  let st2 := if cmp (npMedian preds) st1.medV then
      { st1 with medV := npMedian preds, medL := (d : Int) } else st1
  if cmp (npMean preds) st2.meanV then
      { st2 with meanV := npMean preds, meanL := (d : Int) } else st2

/-- The aggregation classifier's scan over all classes for one query image
(siamese_mnist.py lines 418-457).  `cmp` is `assessment_criteria`
(`new < prev` for the distance convention, `new > prev` for the probability
convention), `init` the sentinel (`999` resp. `-999`), and `preds d` the
score list `model.predict` returns for the reference pairs of class `d`
(the network itself is the external model; its outputs enter here as data). -/
def classifyAgg (cmp : ℚ → ℚ → Bool) (init : ℚ) (preds : Nat → List ℚ) : AggState :=
  (List.range NUM_CLASSES).foldl (fun st d => aggStep cmp st d (preds d))
    ⟨init, -1, init, -1, init, -1⟩

/-- `assessment_criteria` for the distance convention (simple head,
siamese_mnist.py line 420): `new < prev`. -/
def cmpLt (a b : ℚ) : Bool := decide (a < b)

/-- `assessment_criteria` for the probability convention (dense head,
siamese_mnist.py line 426): `new > prev`. -/
def cmpGt (a b : ℚ) : Bool := decide (b < a)

/-- Reference re-statement of one policy's running-best scan, used to express
that the three policies are independent: fold over the per-class aggregate
values, with `d` the class counter. -/
def runningBestFrom (cmp : ℚ → ℚ → Bool) : ℚ × Int → Nat → List ℚ → ℚ × Int
  | b, _, [] => b
  | b, d, v :: rest => runningBestFrom cmp (if cmp v b.1 then (v, (d : Int)) else b) (d + 1) rest

/-- Running best over a list of per-class aggregate values, starting from the
sentinel `init` and the invalid class marker `-1`. -/
def runningBest (cmp : ℚ → ℚ → Bool) (init : ℚ) (vals : List ℚ) : ℚ × Int :=
  runningBestFrom cmp (init, -1) 0 vals

/-- The per-class MIN aggregates the classifier consumes. -/
def minAggList (preds : Nat → List ℚ) : List ℚ :=
  (List.range NUM_CLASSES).map (fun d => npMin (preds d))

/-- The per-class MEDIAN aggregates the classifier consumes. -/
def medAggList (preds : Nat → List ℚ) : List ℚ :=
  (List.range NUM_CLASSES).map (fun d => npMedian (preds d))

/-- The per-class MEAN aggregates the classifier consumes. -/
def meanAggList (preds : Nat → List ℚ) : List ℚ :=
  (List.range NUM_CLASSES).map (fun d => npMean (preds d))

/-- The base networks selectable by `--base_network`
(siamese_mnist.py lines 70, 87, 112); layer construction is delegated to the
external framework, so a model is represented by its chosen architecture. -/
inductive BaseKind
  | nn
  | cnn
  | fcn
deriving DecidableEq

/-- The two siamese heads selectable by `--model` (siamese_mnist.py lines 155, 181). -/
inductive HeadKind
  | simple
  | dense
deriving DecidableEq

/-- A constructed siamese model, identified by its base network and head. -/
structure SiameseModel where
  base : BaseKind
  head : HeadKind
deriving DecidableEq

/-- `create_simple_siamese_model` (siamese_mnist.py lines 155-163): dispatch
on the base-network identifier; anything other than `nn`/`cnn`/`fcn` raises
`Exception('Unknown base network model type.')`. -/
def create_simple_siamese_model (base_network_model : String) : Except String SiameseModel :=
  if base_network_model = "nn" then .ok ⟨BaseKind.nn, HeadKind.simple⟩
  else if base_network_model = "cnn" then .ok ⟨BaseKind.cnn, HeadKind.simple⟩
  else if base_network_model = "fcn" then .ok ⟨BaseKind.fcn, HeadKind.simple⟩
  else .error "Unknown base network model type."

/-- `create_dense_siamese_model` (siamese_mnist.py lines 181-189): same
dispatch for the dense head. -/
def create_dense_siamese_model (base_network_model : String) : Except String SiameseModel :=
  if base_network_model = "nn" then .ok ⟨BaseKind.nn, HeadKind.dense⟩
  else if base_network_model = "cnn" then .ok ⟨BaseKind.cnn, HeadKind.dense⟩
  else if base_network_model = "fcn" then .ok ⟨BaseKind.fcn, HeadKind.dense⟩
  else .error "Unknown base network model type."

/-- Model/head selection in `main` (siamese_mnist.py lines 299-304): dispatch
on `args.model`; anything other than `simple_head`/`dense_head` raises
`Exception('Unknown model type.')`. -/
def selectModel (model base_network : String) : Except String SiameseModel :=
  if model = "simple_head" then create_simple_siamese_model base_network
  else if model = "dense_head" then create_dense_siamese_model base_network
  else .error "Unknown model type."

/-- The observable actions `main` performs from model selection up to and
including training (siamese_mnist.py lines 299-339): selection happens first;
only on success does `main` go on to `model.summary()` and the `model.fit`
calls (one pre-training fit when `min_epochs ≠ 0`, then the main fit).
A raised selection exception yields `Except.error` with no action performed. -/
def mainActions (model base_network : String) (min_epochs : Nat) : Except String (List String) :=
  match selectModel model base_network with
  | .error e => .error e
  | .ok _ => .ok (if min_epochs ≠ 0 then ["summary", "fit", "fit"] else ["summary", "fit"])


/-- Random-stream constant `(0, 0)`: `rand_inc = 1`, `rand_idx = 0` at every step. -/
def rndZero : Nat → Nat × Nat := fun _ => (0, 0)

/-- Random stream whose raw index value is `2` at every step. -/
def rndTwo : Nat → Nat × Nat := fun _ => (0, 2)

/-- Uneven per-class pools: class 0 has three indices, every other class two. -/
def poolsUneven : List (List Nat) :=
  [[0, 1, 2], [3, 4], [5, 6], [7, 8], [9, 10],
   [11, 12], [13, 14], [15, 16], [17, 18], [19, 20]]

/-- Equal per-class pools of length two. -/
def poolsTwo : List (List Nat) :=
  [[0, 1], [2, 3], [4, 5], [6, 7], [8, 9],
   [10, 11], [12, 13], [14, 15], [16, 17], [18, 19]]

/-- A label list with exactly five examples of each of the ten classes. -/
def labelsFifty : List Nat := (List.range 50).map (fun k => k % 10)

/-- The class of index `z` in `poolsTwo`: pool `d` holds `2d` and `2d + 1`. -/
def divTwo : Nat → Nat := fun z => z / 2

/-- Length of the pair list of a `create_pairs` result, when it returned. -/
def pairsLengthOf (o : Option (List (Nat × Nat) × List Nat)) : Option Nat :=
  o.map (fun pl => pl.1.length)

/-- Per-class score lists that are all `[1/2]`: one reference pair per class. -/
def predsHalf : Nat → List ℚ := fun _ => [1/2]

/-- Per-class score lists that are all `[999]`: one reference pair per class,
each scoring exactly the distance-convention sentinel. -/
def preds999 : Nat → List ℚ := fun _ => [999]

/-- Per-class aggregate values `{0.1, 0.4, 0.9}` from the spec's example. -/
def valsMinEx : List ℚ := [1/10, 4/10, 9/10]

/-- Per-class aggregate values `{0.2, 0.15, 0.3}` from the spec's example. -/
def valsMeanEx : List ℚ := [2/10, 3/20, 3/10]

/-- The pair list `create_pairs` produces on `poolsTwo` under `rndZero`:
each class `d` contributes the positive pair `(2d, 2d+1)` and the negative
pair `(2d, 2((d+1) mod 10))`. -/
def pairsTwenty : List (Nat × Nat) :=
  [(0, 1), (0, 2), (2, 3), (2, 4), (4, 5), (4, 6), (6, 7), (6, 8), (8, 9), (8, 10),
   (10, 11), (10, 12), (12, 13), (12, 14), (14, 15), (14, 16), (16, 17), (16, 18),
   (18, 19), (18, 0)]

/-- The label list `create_pairs` produces on `poolsTwo` under `rndZero`. -/
def labelsTwenty : List Nat := [1, 0, 1, 0, 1, 0, 1, 0, 1, 0, 1, 0, 1, 0, 1, 0, 1, 0, 1, 0]

lemma foldr_min_le {l : List Nat} {a : Nat} (b : Nat) (h : a ∈ l) : l.foldr min b ≤ a := by
  induction l with
  | nil => cases h
  | cons x xs ih =>
    rcases List.mem_cons.mp h with h1 | h2
    · subst h1; exact min_le_left _ _
    · exact le_trans (min_le_right _ _) (ih h2)

lemma minPoolLen_le (di : List (List Nat)) (d : Nat) (hd : d < NUM_CLASSES) :
    minPoolLen di ≤ (di.getD d []).length :=
  foldr_min_le _ (List.mem_map.mpr ⟨d, List.mem_range.mpr hd, rfl⟩)

lemma pairSteps_mem {n : Nat} {s : Nat × Nat × Nat} (h : s ∈ pairSteps n) :
    s.1 < NUM_CLASSES ∧ s.2.1 < s.2.2 ∧ s.2.2 < n := by
  rcases List.mem_flatMap.mp h with ⟨d, hd, h2⟩
  rcases List.mem_flatMap.mp h2 with ⟨i, hi, h3⟩
  rcases List.mem_map.mp h3 with ⟨j, hj, rfl⟩
  have hd' := List.mem_range.mp hd
  have hi' := List.mem_range.mp hi
  have hj' := List.mem_range'_1.mp hj
  refine ⟨hd', ?_, ?_⟩ <;> dsimp only <;> omega

lemma pairSteps_of_lt_two {n : Nat} (h : n < 2) : pairSteps n = [] := by
  have : n - 1 = 0 := by omega
  simp [pairSteps, this]

lemma listSum_eq_finsetSum (f : Nat → Nat) (m : Nat) :
    ((List.range m).map f).sum = ∑ i ∈ Finset.range m, f i := by
  induction m with
  | zero => simp
  | succ k ih => rw [List.range_succ, List.map_append, List.sum_append, Finset.sum_range_succ, ih]; simp

lemma sum_range_rev (m : Nat) : (∑ i ∈ Finset.range m, (m - i)) = (m + 1).choose 2 := by
  induction m with
  | zero => simp
  | succ k ih =>
    rw [Finset.sum_range_succ]
    have h2 : ∀ i ∈ Finset.range k, (k + 1 - i) = (k - i) + 1 := by
      intro i hi; have := Finset.mem_range.mp hi; omega
    rw [Finset.sum_congr rfl h2, Finset.sum_add_distrib, ih, Finset.sum_const,
      Finset.card_range, smul_eq_mul, mul_one]
    have hpas : (k + 1 + 1).choose 2 = (k + 1).choose 1 + (k + 1).choose 2 :=
      Nat.choose_succ_succ (k + 1) 1
    rw [Nat.choose_one_right] at hpas
    omega

lemma pairSteps_length (n : Nat) : (pairSteps n).length = NUM_CLASSES * n.choose 2 := by
  have hinner : ∀ d : Nat,
      ((List.range (n - 1)).flatMap (fun i =>
        (List.range' (i + 1) (n - 1 - i)).map (fun j => (d, i, j)))).length = n.choose 2 := by
    intro d
    rw [List.length_flatMap]
    have h1 : (List.map (List.length ∘ fun i =>
          (List.range' (i + 1) (n - 1 - i)).map (fun j => (d, i, j))) (List.range (n - 1)))
        = ((List.range (n - 1)).map (fun i => n - 1 - i)) := by
      apply List.map_eq_map_iff.mpr
      intro i _
      simp
    rw [h1, listSum_eq_finsetSum, sum_range_rev]
    rcases Nat.eq_zero_or_pos n with h0 | hpos
    · subst h0; rfl
    · congr 1; omega
  rw [pairSteps, List.length_flatMap]
  have h2 : (List.map (List.length ∘ fun d =>
        (List.range (n - 1)).flatMap (fun i =>
          (List.range' (i + 1) (n - 1 - i)).map (fun j => (d, i, j)))) (List.range NUM_CLASSES))
      = ((List.range NUM_CLASSES).map (fun _ => n.choose 2)) := by
    apply List.map_eq_map_iff.mpr
    intro d _
    exact hinner d
  rw [h2, listSum_eq_finsetSum]
  rw [Finset.sum_const, Finset.card_range, smul_eq_mul]

/-- The class structure the spec asserts of an emitted pair: a pair labeled 1
joins two indices of the same class, a pair labeled 0 two indices of
different classes (`cls` maps an example index to its class). -/
def pairOk (cls : Nat → Nat) (lab : Nat) (pr : Nat × Nat) : Prop :=
  if lab = 1 then cls pr.1 = cls pr.2 else cls pr.1 ≠ cls pr.2

lemma altLabels_length (m : Nat) : (altLabels m).length = 2 * m := by
  induction m with
  | zero => rfl
  | succ k ih => simp only [altLabels, List.length_cons, ih]; omega

lemma altLabels_get (m : Nat) : ∀ k (hk : k < (altLabels m).length),
    (altLabels m).get ⟨k, hk⟩ = if k % 2 = 0 then 1 else 0 := by
  induction m with
  | zero => intro k hk; simp [altLabels] at hk
  | succ mm ih =>
    intro k hk
    match k with
    | 0 => rfl
    | 1 => rfl
    | k + 2 =>
      have hk' : k < (altLabels mm).length := by
        simp only [altLabels, List.length_cons] at hk; omega
      have h2 : (altLabels (mm + 1)).get ⟨k + 2, hk⟩ = (altLabels mm).get ⟨k, hk'⟩ := rfl
      rw [h2, ih k hk']
      have h3 : (k + 2) % 2 = k % 2 := by omega
      rw [h3]

lemma altLabels_count_one (m : Nat) : (altLabels m).count 1 = m := by
  induction m with
  | zero => rfl
  | succ k ih => simp [altLabels, List.count_cons, ih]

lemma altLabels_count_zero (m : Nat) : (altLabels m).count 0 = m := by
  induction m with
  | zero => rfl
  | succ k ih => simp [altLabels, List.count_cons, ih]

lemma dn_lt (d w : Nat) : (d + randint 1 NUM_CLASSES w) % NUM_CLASSES < NUM_CLASSES :=
  Nat.mod_lt _ (by simp [NUM_CLASSES])

lemma dn_ne {d : Nat} (w : Nat) (hd : d < NUM_CLASSES) :
    (d + randint 1 NUM_CLASSES w) % NUM_CLASSES ≠ d := by
  simp only [NUM_CLASSES, randint] at hd ⊢
  omega

lemma stepPairs_inv {α : Type} {x : Nat → α} {di : List (List Nat)} {rnd : Nat → Nat × Nat}
    {t : Nat} {s : Nat × Nat × Nat} {ps : List (α × α)}
    (h : stepPairs x di rnd t s = some ps) :
    ∃ z2n, (di.getD ((s.1 + randint 1 NUM_CLASSES (rnd t).1) % NUM_CLASSES) []).get?
        (randint 0 (di.getD s.1 []).length (rnd t).2) = some z2n ∧
      ps = [(x ((di.getD s.1 []).getD s.2.1 0), x ((di.getD s.1 []).getD s.2.2 0)),
            (x ((di.getD s.1 []).getD s.2.1 0), x z2n)] := by
  by_cases h0 : (di.getD s.1 []).length = 0
  · rw [stepPairs, if_pos h0] at h; cases h
  · rw [stepPairs, if_neg h0] at h
    rcases hm : (di.getD ((s.1 + randint 1 NUM_CLASSES (rnd t).1) % NUM_CLASSES) []).get?
        (randint 0 (di.getD s.1 []).length (rnd t).2) with _ | z2n
    · rw [hm] at h; cases h
    · rw [hm] at h
      exact ⟨z2n, rfl, (Option.some.inj h).symm⟩

lemma stepPairs_isSome {α : Type} (x : Nat → α) (di : List (List Nat))
    (rnd : Nat → Nat × Nat) (t : Nat) (s : Nat × Nat × Nat)
    (h0 : (di.getD s.1 []).length ≠ 0)
    (h1 : randint 0 (di.getD s.1 []).length (rnd t).2 <
      (di.getD ((s.1 + randint 1 NUM_CLASSES (rnd t).1) % NUM_CLASSES) []).length) :
    (stepPairs x di rnd t s).isSome := by
  rw [stepPairs, if_neg h0, List.get?_eq_get h1]
  rfl

lemma goPairs_some {α : Type} {x : Nat → α} {di : List (List Nat)} {rnd : Nat → Nat × Nat} :
    ∀ {steps : List (Nat × Nat × Nat)} {t : Nat} {p : List (α × α)} {l : List Nat},
      goPairs x di rnd t steps = some (p, l) →
      p.length = 2 * steps.length ∧ l = altLabels steps.length := by
  intro steps
  induction steps with
  | nil =>
    intro t p l h
    simp only [goPairs, Option.some.injEq, Prod.mk.injEq] at h
    obtain ⟨h1, h2⟩ := h
    subst h1; subst h2
    exact ⟨rfl, rfl⟩
  | cons s rest ih =>
    intro t p l h
    simp only [goPairs] at h
    rcases hsp : stepPairs x di rnd t s with _ | ps
    · rw [hsp] at h; cases h
    · rcases hgo : goPairs x di rnd (t + 1) rest with _ | pl
      · rw [hsp, hgo] at h; cases h
      · rcases pl with ⟨prest, lrest⟩
        rw [hsp, hgo] at h
        simp only [Option.some.injEq, Prod.mk.injEq] at h
        obtain ⟨hp, hl⟩ := h
        obtain ⟨hlen, hlab⟩ := ih hgo
        obtain ⟨z2n, _, hps⟩ := stepPairs_inv hsp
        subst hp; subst hl
        constructor
        · rw [List.length_append, hps, hlen]
          simp only [List.length_cons, List.length_nil, List.length_cons]
          omega
        · rw [hlab]
          rfl

lemma goPairs_isSome {α : Type} (x : Nat → α) (di : List (List Nat)) (rnd : Nat → Nat × Nat) :
    ∀ (steps : List (Nat × Nat × Nat)) (t : Nat),
      (∀ t' s, s ∈ steps → (stepPairs x di rnd t' s).isSome) →
      (goPairs x di rnd t steps).isSome := by
  intro steps
  induction steps with
  | nil => intro t _; rfl
  | cons s rest ih =>
    intro t hall
    have h1 := hall t s (List.mem_cons_self s rest)
    have h2 := ih (t + 1) (fun t' s' hs' => hall t' s' (List.mem_cons_of_mem s hs'))
    rcases hsp : stepPairs x di rnd t s with _ | ps
    · rw [hsp] at h1; simp at h1
    · rcases hgo : goPairs x di rnd (t + 1) rest with _ | pl
      · rw [hgo] at h2; simp at h2
      · rcases pl with ⟨prest, lrest⟩
        simp [goPairs, hsp, hgo]

lemma goPairs_forall₂ {di : List (List Nat)} {rnd : Nat → Nat × Nat} {cls : Nat → Nat}
    (Hcls : ∀ d, d < NUM_CLASSES → ∀ z ∈ di.getD d [], cls z = d) {n : Nat}
    (hn : ∀ d, d < NUM_CLASSES → n ≤ (di.getD d []).length) :
    ∀ (steps : List (Nat × Nat × Nat)),
      (∀ s ∈ steps, s.1 < NUM_CLASSES ∧ s.2.1 < s.2.2 ∧ s.2.2 < n) →
      ∀ (t : Nat) (p : List (Nat × Nat)) (l : List Nat),
        goPairs id di rnd t steps = some (p, l) → List.Forall₂ (pairOk cls) l p := by
  intro steps
  induction steps with
  | nil =>
    intro _ t p l h
    simp only [goPairs, Option.some.injEq, Prod.mk.injEq] at h
    obtain ⟨h1, h2⟩ := h
    subst h1; subst h2
    exact List.Forall₂.nil
  | cons s rest ih =>
    intro hsteps t p l h
    obtain ⟨hd, hij, hjn⟩ := hsteps s (List.mem_cons_self s rest)
    simp only [goPairs] at h
    rcases hsp : stepPairs id di rnd t s with _ | ps
    · rw [hsp] at h; cases h
    · rcases hgo : goPairs id di rnd (t + 1) rest with _ | pl
      · rw [hsp, hgo] at h; cases h
      · rcases pl with ⟨prest, lrest⟩
        rw [hsp, hgo] at h
        simp only [Option.some.injEq, Prod.mk.injEq] at h
        obtain ⟨hp, hl⟩ := h
        obtain ⟨z2n, hz, hps⟩ := stepPairs_inv hsp
        have htail := ih (fun s' hs' => hsteps s' (List.mem_cons_of_mem s hs')) _ _ _ hgo
        have hiL : s.2.1 < (di.getD s.1 []).length := lt_of_lt_of_le (by omega) (hn s.1 hd)
        have hjL : s.2.2 < (di.getD s.1 []).length := lt_of_lt_of_le hjn (hn s.1 hd)
        have hz1 : cls ((di.getD s.1 []).getD s.2.1 0) = s.1 := by
          rw [List.getD_eq_get _ _ hiL]
          exact Hcls s.1 hd _ (List.get_mem _ _ _)
        have hz2 : cls ((di.getD s.1 []).getD s.2.2 0) = s.1 := by
          rw [List.getD_eq_get _ _ hjL]
          exact Hcls s.1 hd _ (List.get_mem _ _ _)
        have hz2n : cls z2n = (s.1 + randint 1 NUM_CLASSES (rnd t).1) % NUM_CLASSES :=
          Hcls _ (dn_lt s.1 (rnd t).1) z2n (List.get?_mem hz)
        subst hp; subst hl
        rw [hps]
        refine List.Forall₂.cons ?_ (List.Forall₂.cons ?_ htail)
        · simp only [pairOk, id_eq, if_true]
          rw [hz1, hz2]
        · simp only [pairOk, id_eq]
          rw [hz1, hz2n]
          exact (dn_ne (rnd t).1 hd).symm

lemma whereGo_length (i : Nat) : ∀ (l : List Nat) (z : Nat), (whereGo i z l).length = l.count i := by
  intro l
  induction l with
  | nil => intro z; rfl
  | cons v rest ih =>
    intro z
    by_cases hv : v = i
    · rw [whereGo, if_pos hv, List.length_cons, ih, List.count_cons]
      simp [hv]
    · rw [whereGo, if_neg hv, ih, List.count_cons]
      simp [hv]

lemma map_range_getD {α : Type} (f : Nat → α) (m d : Nat) (dflt : α) (hd : d < m) :
    ((List.range m).map f).getD d dflt = f d := by
  have hlen : d < ((List.range m).map f).length := by simp [hd]
  rw [List.getD_eq_get _ _ hlen]
  simp

lemma pool_length (labels : List Nat) (eppc d : Nat) (hd : d < NUM_CLASSES) :
    ((get_digit_indices labels eppc).getD d []).length = min eppc (labels.count d) := by
  rw [get_digit_indices, map_range_getD _ _ _ _ hd, List.length_take, np_where, whereGo_length]

/-- C1: evaluation of the code at a failing input.  On pools where class 0
holds three indices and class 1 only two, the first loop step draws
`rand_inc = 1` and `rand_idx = 2`: `rand_idx` is a valid index into
`digit_indices[0]` (the source class, whose length bounds the draw at
line 62) but not into `digit_indices[1]` (the partner class that line 64
actually indexes), so `create_pairs` raises `IndexError` (modelled `none`),
contradicting the claim that the `pool[dn][r]` access is always in bounds. -/
theorem create_pairs_oob_eval :
    randint 0 (poolsUneven.getD 0 []).length 2 = 2 ∧
    (poolsUneven.getD 1 []).length = 2 ∧
    create_pairs id poolsUneven rndTwo = none := by
  refine ⟨by decide, by decide, by decide⟩

/-- C2: `get_digit_indices` returns `NUM_CLASSES` pools of length
`min examples_per_class (count of the class)` — at most `examples_per_class`,
and exactly that many when the class has at least that many examples; any
normal return of `create_pairs` on those pools carries exactly
`2 * NUM_CLASSES * C(n, 2)` pairs with as many labels, `n` the minimum pool
length; when all pools share length `n` the call returns normally for every
random stream; and when `n < 2` it returns the empty pair list, not an error. -/
theorem spec_C2 (labels : List Nat) (eppc : Nat) (x : Nat → Nat) (rnd : Nat → Nat × Nat) :
    (get_digit_indices labels eppc).length = NUM_CLASSES ∧
    (∀ d, d < NUM_CLASSES →
      ((get_digit_indices labels eppc).getD d []).length = min eppc (labels.count d)) ∧
    (∀ p l, create_pairs x (get_digit_indices labels eppc) rnd = some (p, l) →
      p.length = 2 * NUM_CLASSES * (minPoolLen (get_digit_indices labels eppc)).choose 2 ∧
      l.length = p.length) ∧
    ((∀ d, d < NUM_CLASSES → ((get_digit_indices labels eppc).getD d []).length
        = minPoolLen (get_digit_indices labels eppc)) →
      (create_pairs x (get_digit_indices labels eppc) rnd).isSome = true) ∧
    (minPoolLen (get_digit_indices labels eppc) < 2 →
      create_pairs x (get_digit_indices labels eppc) rnd = some ([], [])) := by
  refine ⟨by simp [get_digit_indices], fun d hd => pool_length labels eppc d hd, ?_, ?_, ?_⟩
  · intro p l h
    obtain ⟨hlen, hlab⟩ := goPairs_some h
    rw [pairSteps_length] at hlen
    constructor
    · rw [hlen]; ring
    · rw [hlab, altLabels_length, hlen]
      rw [pairSteps_length]
  · intro heq
    apply goPairs_isSome
    intro t' s hs
    obtain ⟨hd, hij, hjn⟩ := pairSteps_mem hs
    have hge2 : 2 ≤ minPoolLen (get_digit_indices labels eppc) := by omega
    have hlen := heq s.1 hd
    apply stepPairs_isSome
    · rw [hlen]; omega
    · rw [heq _ (dn_lt s.1 (rnd t').1), hlen, randint]
      have hmod := Nat.mod_lt ((rnd t').2)
        (show 0 < minPoolLen (get_digit_indices labels eppc) - 0 by omega)
      omega
  · intro hlt
    rw [create_pairs, pairSteps_of_lt_two hlt]
    rfl

/-- C2 witness: with ten classes of five examples each and
`examples_per_class = 5`, the pools all have length 5 and `create_pairs`
returns exactly `2 * 10 * C(5, 2) = 200` pairs. -/
theorem spec_C2_witness :
    pairsLengthOf (create_pairs id (get_digit_indices labelsFifty 5) rndZero) = some 200 ∧
    minPoolLen (get_digit_indices labelsFifty 5) = 5 := by
  constructor
  · obtain ⟨pl, hpl⟩ := Option.isSome_iff_exists.mp
      ((spec_C2 labelsFifty 5 id rndZero).2.2.2.1 (by decide))
    rcases pl with ⟨p, l⟩
    have h3 := ((spec_C2 labelsFifty 5 id rndZero).2.2.1 p l hpl).1
    rw [pairsLengthOf, hpl, Option.map_some', h3]
    decide
  · decide

/-- C3: every normal return of `create_pairs` carries the label sequence
`[1, 0, 1, 0, ...]` — position `k` holds 1 exactly when `k` is even — so the
counts of label 1 and label 0 are equal, and there is one label per pair. -/
theorem spec_C3 (x : Nat → Nat) (di : List (List Nat)) (rnd : Nat → Nat × Nat)
    (p : List (Nat × Nat)) (l : List Nat) (h : create_pairs x di rnd = some (p, l)) :
    (∀ k (hk : k < l.length), l.get ⟨k, hk⟩ = if k % 2 = 0 then 1 else 0) ∧
    l.count 1 = l.count 0 ∧ l.length = p.length := by
  obtain ⟨hlen, hlab⟩ := goPairs_some h
  subst hlab
  refine ⟨altLabels_get _, ?_, ?_⟩
  · rw [altLabels_count_one, altLabels_count_zero]
  · rw [altLabels_length, hlen]

/-- C3 witness: the concrete run on `poolsTwo` with the zero stream, whose
labels alternate and balance. -/
theorem spec_C3_witness :
    create_pairs id poolsTwo rndZero = some (pairsTwenty, labelsTwenty) ∧
    labelsTwenty.count 1 = labelsTwenty.count 0 :=
  ⟨by decide, (spec_C3 id poolsTwo rndZero pairsTwenty labelsTwenty (by decide)).2.1⟩

/-- C4: in every normal return of `create_pairs` on pools whose class-`d`
pool holds only indices of class `d`, each pair labeled 1 joins two indices
of the same class and each pair labeled 0 joins two indices of different
classes (the partner class `(d + randint 1 NUM_CLASSES v) % NUM_CLASSES`
never equals the source class `d`). -/
theorem spec_C4 (di : List (List Nat)) (rnd : Nat → Nat × Nat) (cls : Nat → Nat)
    (p : List (Nat × Nat)) (l : List Nat)
    (Hcls : ∀ d, d < NUM_CLASSES → ∀ z ∈ di.getD d [], cls z = d)
    (h : create_pairs id di rnd = some (p, l)) :
    List.Forall₂ (pairOk cls) l p :=
  goPairs_forall₂ Hcls (fun d hd => minPoolLen_le di d hd) _
    (fun _ hs => pairSteps_mem hs) _ _ _ h

/-- C4 witness: the concrete run on `poolsTwo` (class of index `z` is
`z / 2`) with the zero stream. -/
theorem spec_C4_witness : List.Forall₂ (pairOk divTwo) labelsTwenty pairsTwenty :=
  spec_C4 poolsTwo rndZero divTwo pairsTwenty labelsTwenty (by decide) (by decide)

lemma contrastive_zip (y_true : List ℚ) : ∀ (y_pred : List ℚ),
    List.zipWith (fun t p => t * p ^ 2 + (1 - t) * max ((1 : ℚ) - p) 0 ^ 2) y_true y_pred
      = (y_true.zip y_pred).map (fun pr => specContrastiveTerm pr.1 pr.2) := by
  induction y_true with
  | nil => intro y_pred; simp
  | cons t ts ih =>
    intro y_pred
    cases y_pred with
    | nil => simp
    | cons p ps => simp [specContrastiveTerm, ih ps]

lemma zipWith_ind_sum (P : ℚ → ℚ → Prop) [DecidableRel P] :
    ∀ (l1 l2 : List ℚ),
      (List.zipWith (fun a b => if P a b then (1 : ℚ) else 0) l1 l2).sum
        = (((List.zipWith (fun a b => decide (P a b)) l1 l2).filter
            (fun b => b)).length : ℚ) := by
  intro l1
  induction l1 with
  | nil => intro l2; simp
  | cons a as ih =>
    intro l2
    cases l2 with
    | nil => simp
    | cons b bs =>
      by_cases h : P a b
      · simp only [List.zipWith, if_pos h, List.sum_cons, ih bs, decide_eq_true h,
          List.filter, List.length_cons]
        push_cast
        ring
      · simp only [List.zipWith, if_neg h, List.sum_cons, ih bs, decide_eq_false h,
          List.filter]
        ring

lemma zipWith_ind_all (P : ℚ → ℚ → Prop) [DecidableRel P] :
    ∀ (l1 l2 : List ℚ), (∀ pr ∈ l1.zip l2, P pr.1 pr.2) →
      (List.zipWith (fun a b => decide (P a b)) l1 l2).filter (fun b => b)
        = List.zipWith (fun a b => decide (P a b)) l1 l2 := by
  intro l1
  induction l1 with
  | nil => intro l2 _; simp
  | cons a as ih =>
    intro l2 hall
    cases l2 with
    | nil => simp
    | cons b bs =>
      have h := hall (a, b) (by simp)
      simp only [List.zipWith, List.filter, decide_eq_true h]
      rw [ih bs (fun pr hpr => hall pr (List.mem_cons_of_mem _ hpr))]

lemma zipWith_ind_none (P : ℚ → ℚ → Prop) [DecidableRel P] :
    ∀ (l1 l2 : List ℚ), (∀ pr ∈ l1.zip l2, ¬ P pr.1 pr.2) →
      (List.zipWith (fun a b => decide (P a b)) l1 l2).filter (fun b => b) = [] := by
  intro l1
  induction l1 with
  | nil => intro l2 _; simp
  | cons a as ih =>
    intro l2 hall
    cases l2 with
    | nil => simp
    | cons b bs =>
      have h := hall (a, b) (by simp)
      simp only [List.zipWith, List.filter, decide_eq_false h]
      exact ih bs (fun pr hpr => hall pr (List.mem_cons_of_mem _ hpr))

/-- C6: `contrastive_loss` equals the batch mean of the per-pair loss
`y_true * y_pred² + (1 - y_true) * max(1 - y_pred, 0)²`; for a pair labeled 1
the per-pair loss is the score squared, for a pair labeled 0 it is
`max(margin - score, 0)²` with margin 1. -/
theorem spec_C6 (y_true y_pred : List ℚ) (hlen : y_true.length = y_pred.length) :
    contrastive_loss y_true y_pred =
      ((y_true.zip y_pred).map (fun pr => specContrastiveTerm pr.1 pr.2)).sum /
        (y_true.length : ℚ) ∧
    (∀ s : ℚ, specContrastiveTerm 1 s = s ^ 2) ∧
    (∀ s : ℚ, specContrastiveTerm 0 s = max (1 - s) 0 ^ 2) := by
  refine ⟨?_, ?_, ?_⟩
  · rw [contrastive_loss, contrastive_zip]
    congr 1
    rw [List.length_map, List.length_zip]
    norm_cast
    omega
  · intro s; simp [specContrastiveTerm]
  · intro s; simp [specContrastiveTerm]

/-- C6 witness: a batch of one positive pair scoring `1/2` and one negative
pair scoring `1/4` has loss `((1/2)² + (3/4)²) / 2 = 13/32`. -/
theorem spec_C6_witness : contrastive_loss [1, 0] [1/2, 1/4] = 13/32 := by
  have h := spec_C6 [1, 0] [1/2, 1/4] rfl
  rw [h.1]
  norm_num [specContrastiveTerm]

/-- C7: `compute_accuracy` on equal-length nonempty sequences is the fraction
of positions where `(score < DISTANCE_THRESHOLD) == label`; it is 1 when
every position satisfies the test and 0 when every position fails it. -/
theorem spec_C7 (y_true y_pred : List ℚ) (hlen : y_true.length = y_pred.length)
    (hne : y_true ≠ []) :
    compute_accuracy y_true y_pred = (matchCount y_true y_pred : ℚ) / (y_true.length : ℚ) ∧
    ((∀ pr ∈ y_pred.zip y_true, (if pr.1 < DISTANCE_THRESHOLD then (1 : ℚ) else 0) = pr.2) →
      compute_accuracy y_true y_pred = 1) ∧
    ((∀ pr ∈ y_pred.zip y_true, (if pr.1 < DISTANCE_THRESHOLD then (1 : ℚ) else 0) ≠ pr.2) →
      compute_accuracy y_true y_pred = 0) := by
  have hlen0 : (y_true.length : ℚ) ≠ 0 := by
    simp only [ne_eq, Nat.cast_eq_zero, List.length_eq_zero]
    exact hne
  have hmain : compute_accuracy y_true y_pred
      = (matchCount y_true y_pred : ℚ) / (y_true.length : ℚ) := by
    rw [compute_accuracy, matchCount,
      zipWith_ind_sum (fun p t => (if p < DISTANCE_THRESHOLD then (1 : ℚ) else 0) = t)]
    congr 1
    rw [List.length_zipWith]
    norm_cast
    omega
  refine ⟨hmain, ?_, ?_⟩
  · intro hall
    rw [hmain, matchCount,
      zipWith_ind_all (fun p t => (if p < DISTANCE_THRESHOLD then (1 : ℚ) else 0) = t)
        y_pred y_true hall]
    rw [List.length_zipWith]
    rw [show min y_pred.length y_true.length = y_true.length by omega]
    exact div_self hlen0
  · intro hall
    rw [hmain, matchCount,
      zipWith_ind_none (fun p t => (if p < DISTANCE_THRESHOLD then (1 : ℚ) else 0) = t)
        y_pred y_true hall]
    simp

/-- C7 witness: scores `[1/4, 3/4]` against labels `[1, 0]` satisfy the test
at every position, so the accuracy is exactly 1. -/
theorem spec_C7_witness : compute_accuracy [1, 0] [1/4, 3/4] = 1 :=
  (spec_C7 [1, 0] [1/4, 3/4] rfl (by simp)).2.1
    (by intro pr hpr; fin_cases hpr <;> norm_num [DISTANCE_THRESHOLD])

/-- C10: a score exactly equal to `DISTANCE_THRESHOLD` fails the strict
`score < DISTANCE_THRESHOLD` test, so both `compute_accuracy` and the `acc`
metric classify it as a negative ("different") prediction: against true
label 1 the pair counts as misclassified (accuracy 0), against true label 0
it counts as correct (accuracy 1). -/
theorem spec_C10 :
    ¬ (DISTANCE_THRESHOLD < DISTANCE_THRESHOLD) ∧
    compute_accuracy [1] [DISTANCE_THRESHOLD] = 0 ∧ acc [1] [DISTANCE_THRESHOLD] = 0 ∧
    compute_accuracy [0] [DISTANCE_THRESHOLD] = 1 ∧ acc [0] [DISTANCE_THRESHOLD] = 1 := by
  have hlt : ¬ (DISTANCE_THRESHOLD < DISTANCE_THRESHOLD) := lt_irrefl _
  refine ⟨hlt, ?_, ?_, ?_, ?_⟩ <;>
    simp [compute_accuracy, acc, List.zipWith, if_neg hlt, DISTANCE_THRESHOLD]

lemma aggStep_min (cmp : ℚ → ℚ → Bool) (st : AggState) (d : Nat) (preds : List ℚ) :
    ((aggStep cmp st d preds).minV, (aggStep cmp st d preds).minL)
      = if cmp (npMin preds) st.minV then (npMin preds, (d : Int))
        else (st.minV, st.minL) := by
  rw [aggStep]
  split_ifs <;> rfl

lemma aggStep_med (cmp : ℚ → ℚ → Bool) (st : AggState) (d : Nat) (preds : List ℚ) :
    ((aggStep cmp st d preds).medV, (aggStep cmp st d preds).medL)
      = if cmp (npMedian preds) st.medV then (npMedian preds, (d : Int))
        else (st.medV, st.medL) := by
  rw [aggStep]
  split_ifs <;> rfl

lemma aggStep_mean (cmp : ℚ → ℚ → Bool) (st : AggState) (d : Nat) (preds : List ℚ) :
    ((aggStep cmp st d preds).meanV, (aggStep cmp st d preds).meanL)
      = if cmp (npMean preds) st.meanV then (npMean preds, (d : Int))
        else (st.meanV, st.meanL) := by
  rw [aggStep]
  split_ifs <;> rfl

lemma classify_fold_min (cmp : ℚ → ℚ → Bool) (preds : Nat → List ℚ) :
    ∀ (m d0 : Nat) (st : AggState),
      (((List.range' d0 m).foldl (fun st d => aggStep cmp st d (preds d)) st).minV,
       ((List.range' d0 m).foldl (fun st d => aggStep cmp st d (preds d)) st).minL)
        = runningBestFrom cmp (st.minV, st.minL) d0
            ((List.range' d0 m).map (fun d => npMin (preds d))) := by
  intro m
  induction m with
  | zero => intro d0 st; rfl
  | succ k ih =>
    intro d0 st
    have hr : List.range' d0 (k + 1) = d0 :: List.range' (d0 + 1) k := rfl
    rw [hr, List.foldl_cons, List.map_cons, runningBestFrom,
      ih (d0 + 1) (aggStep cmp st d0 (preds d0)), aggStep_min]

lemma classify_fold_med (cmp : ℚ → ℚ → Bool) (preds : Nat → List ℚ) :
    ∀ (m d0 : Nat) (st : AggState),
      (((List.range' d0 m).foldl (fun st d => aggStep cmp st d (preds d)) st).medV,
       ((List.range' d0 m).foldl (fun st d => aggStep cmp st d (preds d)) st).medL)
        = runningBestFrom cmp (st.medV, st.medL) d0
            ((List.range' d0 m).map (fun d => npMedian (preds d))) := by
  intro m
  induction m with
  | zero => intro d0 st; rfl
  | succ k ih =>
    intro d0 st
    have hr : List.range' d0 (k + 1) = d0 :: List.range' (d0 + 1) k := rfl
    rw [hr, List.foldl_cons, List.map_cons, runningBestFrom,
      ih (d0 + 1) (aggStep cmp st d0 (preds d0)), aggStep_med]

lemma classify_fold_mean (cmp : ℚ → ℚ → Bool) (preds : Nat → List ℚ) :
    ∀ (m d0 : Nat) (st : AggState),
      (((List.range' d0 m).foldl (fun st d => aggStep cmp st d (preds d)) st).meanV,
       ((List.range' d0 m).foldl (fun st d => aggStep cmp st d (preds d)) st).meanL)
        = runningBestFrom cmp (st.meanV, st.meanL) d0
            ((List.range' d0 m).map (fun d => npMean (preds d))) := by
  intro m
  induction m with
  | zero => intro d0 st; rfl
  | succ k ih =>
    intro d0 st
    have hr : List.range' d0 (k + 1) = d0 :: List.range' (d0 + 1) k := rfl
    rw [hr, List.foldl_cons, List.map_cons, runningBestFrom,
      ih (d0 + 1) (aggStep cmp st d0 (preds d0)), aggStep_mean]

lemma classifyAgg_min (cmp : ℚ → ℚ → Bool) (init : ℚ) (preds : Nat → List ℚ) :
    ((classifyAgg cmp init preds).minV, (classifyAgg cmp init preds).minL)
      = runningBest cmp init (minAggList preds) := by
  rw [classifyAgg, runningBest, minAggList, List.range_eq_range']
  exact classify_fold_min cmp preds NUM_CLASSES 0 ⟨init, -1, init, -1, init, -1⟩

lemma classifyAgg_med (cmp : ℚ → ℚ → Bool) (init : ℚ) (preds : Nat → List ℚ) :
    ((classifyAgg cmp init preds).medV, (classifyAgg cmp init preds).medL)
      = runningBest cmp init (medAggList preds) := by
  rw [classifyAgg, runningBest, medAggList, List.range_eq_range']
  exact classify_fold_med cmp preds NUM_CLASSES 0 ⟨init, -1, init, -1, init, -1⟩

lemma classifyAgg_mean (cmp : ℚ → ℚ → Bool) (init : ℚ) (preds : Nat → List ℚ) :
    ((classifyAgg cmp init preds).meanV, (classifyAgg cmp init preds).meanL)
      = runningBest cmp init (meanAggList preds) := by
  rw [classifyAgg, runningBest, meanAggList, List.range_eq_range']
  exact classify_fold_mean cmp preds NUM_CLASSES 0 ⟨init, -1, init, -1, init, -1⟩
lemma rbf_lt_inv : ∀ (vals : List ℚ) (b : ℚ × Int) (d : Nat),
    (runningBestFrom cmpLt b d vals = b ∧ ∀ v ∈ vals, b.1 ≤ v) ∨
    (∃ k, k < vals.length ∧
      runningBestFrom cmpLt b d vals = (vals.getD k 0, ((d + k : Nat) : Int)) ∧
      vals.getD k 0 < b.1 ∧
      (∀ j, j < vals.length → vals.getD k 0 ≤ vals.getD j 0) ∧
      (∀ j, j < k → vals.getD k 0 < vals.getD j 0)) := by
  intro vals
  induction vals with
  | nil => intro b d; left; exact ⟨rfl, by simp⟩
  | cons v rest ih =>
    intro b d
    by_cases hv : v < b.1
    · have hstep : runningBestFrom cmpLt b d (v :: rest)
          = runningBestFrom cmpLt (v, (d : Int)) (d + 1) rest := by
        rw [runningBestFrom, if_pos (by simp [cmpLt, hv])]
      rcases ih (v, (d : Int)) (d + 1) with ⟨heq, hall⟩ | ⟨k, hk, heq, hlt, hmin, hfirst⟩
      · right
        refine ⟨0, by simp, ?_, hv, ?_, ?_⟩
        · rw [hstep, heq]; simp
        · intro j hj
          match j with
          | 0 => exact le_refl v
          | j + 1 =>
            have hj' : j < rest.length := by simpa using hj
            have hmem : rest.getD j 0 ∈ rest := by
              rw [List.getD_eq_get _ _ hj']; exact List.get_mem _ _ _
            exact hall _ hmem
        · intro j hj; exact absurd hj (Nat.not_lt_zero j)
      · right
        refine ⟨k + 1, by simpa using Nat.succ_lt_succ hk, ?_, ?_, ?_, ?_⟩
        · rw [hstep, heq]
          simp only [Prod.mk.injEq]
          exact ⟨rfl, Nat.cast_inj.mpr (by omega)⟩
        · exact lt_trans hlt hv
        · intro j hj
          match j with
          | 0 => exact le_of_lt hlt
          | j + 1 =>
            have hj' : j < rest.length := by simpa using hj
            exact hmin j hj'
        · intro j hj
          match j with
          | 0 => exact hlt
          | j + 1 => exact hfirst j (by omega)
    · have hstep : runningBestFrom cmpLt b d (v :: rest)
          = runningBestFrom cmpLt b (d + 1) rest := by
        rw [runningBestFrom, if_neg (by simp [cmpLt, hv])]
      have hbv : b.1 ≤ v := not_lt.mp hv
      rcases ih b (d + 1) with ⟨heq, hall⟩ | ⟨k, hk, heq, hlt, hmin, hfirst⟩
      · left
        refine ⟨by rw [hstep, heq], ?_⟩
        intro w hw
        rcases List.mem_cons.mp hw with h1 | h2
        · subst h1; exact hbv
        · exact hall w h2
      · right
        refine ⟨k + 1, by simpa using Nat.succ_lt_succ hk, ?_, hlt, ?_, ?_⟩
        · rw [hstep, heq]
          simp only [Prod.mk.injEq]
          exact ⟨rfl, Nat.cast_inj.mpr (by omega)⟩
        · intro j hj
          match j with
          | 0 => exact le_of_lt (lt_of_lt_of_le hlt hbv)
          | j + 1 =>
            have hj' : j < rest.length := by simpa using hj
            exact hmin j hj'
        · intro j hj
          match j with
          | 0 => exact lt_of_lt_of_le hlt hbv
          | j + 1 => exact hfirst j (by omega)

lemma runningBest_lt_spec (init : ℚ) (vals : List ℚ) (k : Nat) (hk : k < vals.length)
    (h : (runningBest cmpLt init vals).2 = (k : Int)) :
    (runningBest cmpLt init vals).1 = vals.getD k 0 ∧
    vals.getD k 0 < init ∧
    (∀ j, j < vals.length → vals.getD k 0 ≤ vals.getD j 0) ∧
    (∀ j, j < k → vals.getD k 0 < vals.getD j 0) := by
  rcases rbf_lt_inv vals (init, -1) 0 with ⟨heq, _⟩ | ⟨k', hk', heq, hlt, hmin, hfirst⟩
  · rw [runningBest, heq] at h
    exfalso
    omega
  · rw [runningBest, heq] at h ⊢
    have hkk : k' = k := by
      simp at h
      omega
    subst hkk
    exact ⟨rfl, hlt, hmin, hfirst⟩

lemma getD_map_neg (vals : List ℚ) (j : Nat) (hj : j < vals.length) :
    (vals.map (fun v => -v)).getD j 0 = -(vals.getD j 0) := by
  rw [List.getD_eq_get _ _ (by simpa using hj), List.getD_eq_get _ _ hj, List.get_map]

lemma rbf_gt_neg : ∀ (vals : List ℚ) (b : ℚ × Int) (d : Nat),
    runningBestFrom cmpGt b d vals
      = (-(runningBestFrom cmpLt (-b.1, b.2) d (vals.map (fun v => -v))).1,
         (runningBestFrom cmpLt (-b.1, b.2) d (vals.map (fun v => -v))).2) := by
  intro vals
  induction vals with
  | nil => intro b d; simp [runningBestFrom]
  | cons v rest ih =>
    intro b d
    rw [List.map_cons, runningBestFrom, runningBestFrom]
    dsimp only
    have hcond : cmpGt v b.1 = cmpLt (-v) (-b.1) := by
      simp only [cmpGt, cmpLt]
      congr 1
      simp [propext (neg_lt_neg_iff)]
    rw [hcond]
    by_cases h : cmpLt (-v) (-b.1) = true
    · rw [if_pos h, if_pos h]
      exact ih (v, (d : Int)) (d + 1)
    · rw [if_neg h, if_neg h]
      exact ih b (d + 1)

lemma runningBest_gt_spec (init : ℚ) (vals : List ℚ) (k : Nat) (hk : k < vals.length)
    (h : (runningBest cmpGt init vals).2 = (k : Int)) :
    (runningBest cmpGt init vals).1 = vals.getD k 0 ∧
    init < vals.getD k 0 ∧
    (∀ j, j < vals.length → vals.getD j 0 ≤ vals.getD k 0) ∧
    (∀ j, j < k → vals.getD j 0 < vals.getD k 0) := by
  have htr := rbf_gt_neg vals (init, -1) 0
  have hk2 : k < (vals.map (fun v => -v)).length := by simpa using hk
  have h2 : (runningBest cmpLt (-init) (vals.map (fun v => -v))).2 = (k : Int) := by
    rw [runningBest] at h ⊢
    rw [htr] at h
    exact h
  obtain ⟨h1, hlt, hmin, hfirst⟩ :=
    runningBest_lt_spec (-init) (vals.map (fun v => -v)) k hk2 h2
  rw [getD_map_neg vals k hk] at h1 hlt hmin hfirst
  refine ⟨?_, ?_, ?_, ?_⟩
  · rw [runningBest, htr]
    show -(runningBestFrom cmpLt (-init, -1) 0 (vals.map (fun v => -v))).1 = vals.getD k 0
    rw [show runningBestFrom cmpLt (-init, -1) 0 (vals.map (fun v => -v))
        = runningBest cmpLt (-init) (vals.map (fun v => -v)) from rfl, h1]
    ring
  · exact neg_lt_neg_iff.mp hlt
  · intro j hj
    have := hmin j (by simpa using hj)
    rw [getD_map_neg vals j hj] at this
    linarith
  · intro j hj
    have := hfirst j hj
    rw [getD_map_neg vals j (lt_trans hj hk)] at this
    linarith

lemma rbf_label_cases (cmp : ℚ → ℚ → Bool) : ∀ (vals : List ℚ) (b : ℚ × Int) (d : Nat),
    (runningBestFrom cmp b d vals).2 = b.2 ∨
    ((d : Int) ≤ (runningBestFrom cmp b d vals).2 ∧
      (runningBestFrom cmp b d vals).2 < (d : Int) + vals.length) := by
  intro vals
  induction vals with
  | nil => intro b d; left; rfl
  | cons v rest ih =>
    intro b d
    rw [runningBestFrom]
    by_cases h : cmp v b.1 = true
    · rw [if_pos h]
      rcases ih (v, (d : Int)) (d + 1) with h2 | ⟨h2, h3⟩
      · right
        rw [h2]
        constructor
        · exact le_refl _
        · simp only [List.length_cons]
          push_cast
          omega
      · right
        simp only [List.length_cons] at h3 ⊢
        push_cast at h2 h3 ⊢
        omega
    · rw [if_neg h]
      rcases ih b (d + 1) with h2 | ⟨h2, h3⟩
      · left; exact h2
      · right
        simp only [List.length_cons] at h3 ⊢
        push_cast at h2 h3 ⊢
        omega

lemma rbf_head_updated (cmp : ℚ → ℚ → Bool) (v : ℚ) (rest : List ℚ) (b : ℚ × Int) (d : Nat)
    (h : cmp v b.1 = true) :
    (d : Int) ≤ (runningBestFrom cmp b d (v :: rest)).2 := by
  rw [runningBestFrom, if_pos h]
  rcases rbf_label_cases cmp rest (v, (d : Int)) (d + 1) with h2 | ⟨h2, _⟩
  · rw [h2]
  · push_cast at h2
    omega

lemma runningBest_label_of_head (cmp : ℚ → ℚ → Bool) (init v : ℚ) (rest : List ℚ)
    (h : cmp v init = true) :
    0 ≤ (runningBest cmp init (v :: rest)).2 ∧
    (runningBest cmp init (v :: rest)).2 < 1 + rest.length := by
  rw [runningBest]
  have h1 := rbf_head_updated cmp v rest (init, -1) 0 h
  rcases rbf_label_cases cmp (v :: rest) (init, -1) 0 with h2 | ⟨_, h3⟩
  · rw [h2] at h1
    exact absurd h1 (by norm_num)
  · simp only [List.length_cons] at h3
    push_cast at h1 h3 ⊢
    omega

lemma foldl_min_mem : ∀ (rest : List ℚ) (v : ℚ),
    rest.foldl min v = v ∨ rest.foldl min v ∈ rest := by
  intro rest
  induction rest with
  | nil => intro v; left; rfl
  | cons w ws ih =>
    intro v
    rw [List.foldl_cons]
    rcases ih (min v w) with h1 | h2
    · rcases min_choice v w with hm | hm
      · left; rw [h1, hm]
      · right; rw [h1, hm]; exact List.mem_cons_self _ _
    · right; exact List.mem_cons_of_mem _ h2

lemma npMin_mem (l : List ℚ) (hne : l ≠ []) : npMin l ∈ l := by
  match l with
  | [] => exact absurd rfl hne
  | v :: rest =>
    rw [npMin]
    rcases foldl_min_mem rest v with h1 | h2
    · rw [h1]; exact List.mem_cons_self _ _
    · exact List.mem_cons_of_mem _ h2

lemma sum_lt_of_forall : ∀ (l : List ℚ) (c : ℚ), l ≠ [] → (∀ s ∈ l, s < c) →
    l.sum < c * l.length := by
  intro l
  induction l with
  | nil => intro c h; exact absurd rfl h
  | cons v rest ih =>
    intro c _ hall
    rw [List.sum_cons, List.length_cons]
    rcases eq_or_ne rest [] with hr | hr
    · subst hr
      have := hall v (List.mem_cons_self _ _)
      simp only [List.sum_nil, List.length_nil]
      push_cast
      linarith
    · have h1 := ih c hr (fun s hs => hall s (List.mem_cons_of_mem _ hs))
      have h2 := hall v (List.mem_cons_self _ _)
      push_cast
      linarith

lemma npMean_lt_of_forall (l : List ℚ) (c : ℚ) (hne : l ≠ []) (hall : ∀ s ∈ l, s < c) :
    npMean l < c := by
  have hlen : 0 < (l.length : ℚ) := by
    have h := List.length_pos.mpr hne
    exact_mod_cast h
  rw [npMean, div_lt_iff hlen]
  exact sum_lt_of_forall l c hne hall

lemma sum_gt_of_forall : ∀ (l : List ℚ) (c : ℚ), l ≠ [] → (∀ s ∈ l, c < s) →
    c * l.length < l.sum := by
  intro l
  induction l with
  | nil => intro c h; exact absurd rfl h
  | cons v rest ih =>
    intro c _ hall
    rw [List.sum_cons, List.length_cons]
    rcases eq_or_ne rest [] with hr | hr
    · subst hr
      have := hall v (List.mem_cons_self _ _)
      simp only [List.sum_nil, List.length_nil]
      push_cast
      linarith
    · have h1 := ih c hr (fun s hs => hall s (List.mem_cons_of_mem _ hs))
      have h2 := hall v (List.mem_cons_self _ _)
      push_cast
      linarith

lemma npMean_gt_of_forall (l : List ℚ) (c : ℚ) (hne : l ≠ []) (hall : ∀ s ∈ l, c < s) :
    c < npMean l := by
  have hlen : 0 < (l.length : ℚ) := by
    have h := List.length_pos.mpr hne
    exact_mod_cast h
  rw [npMean, lt_div_iff hlen]
  exact sum_gt_of_forall l c hne hall

lemma npMedian_lt_of_forall (l : List ℚ) (c : ℚ) (hne : l ≠ []) (hall : ∀ s ∈ l, s < c) :
    npMedian l < c := by
  have hperm : List.Perm (l.insertionSort (· ≤ ·)) l := List.perm_insertionSort _ l
  have hslen : (l.insertionSort (· ≤ ·)).length = l.length := hperm.length_eq
  have hlen : 0 < l.length := List.length_pos.mpr hne
  have hsall : ∀ s ∈ l.insertionSort (· ≤ ·), s < c := fun s hs => hall s (hperm.subset hs)
  rw [npMedian]
  by_cases hpar : l.length % 2 = 1
  · rw [if_pos hpar]
    have hidx : l.length / 2 < (l.insertionSort (· ≤ ·)).length := by rw [hslen]; omega
    rw [List.getD_eq_get _ _ hidx]
    exact hsall _ (List.get_mem _ _ _)
  · rw [if_neg hpar]
    have hidx1 : l.length / 2 - 1 < (l.insertionSort (· ≤ ·)).length := by rw [hslen]; omega
    have hidx2 : l.length / 2 < (l.insertionSort (· ≤ ·)).length := by rw [hslen]; omega
    rw [List.getD_eq_get _ _ hidx1, List.getD_eq_get _ _ hidx2]
    have ha := hsall _ (List.get_mem _ _ hidx1)
    have hb := hsall _ (List.get_mem _ _ hidx2)
    linarith

lemma npMedian_gt_of_forall (l : List ℚ) (c : ℚ) (hne : l ≠ []) (hall : ∀ s ∈ l, c < s) :
    c < npMedian l := by
  have hperm : List.Perm (l.insertionSort (· ≤ ·)) l := List.perm_insertionSort _ l
  have hslen : (l.insertionSort (· ≤ ·)).length = l.length := hperm.length_eq
  have hlen : 0 < l.length := List.length_pos.mpr hne
  have hsall : ∀ s ∈ l.insertionSort (· ≤ ·), c < s := fun s hs => hall s (hperm.subset hs)
  rw [npMedian]
  by_cases hpar : l.length % 2 = 1
  · rw [if_pos hpar]
    have hidx : l.length / 2 < (l.insertionSort (· ≤ ·)).length := by rw [hslen]; omega
    rw [List.getD_eq_get _ _ hidx]
    exact hsall _ (List.get_mem _ _ _)
  · rw [if_neg hpar]
    have hidx1 : l.length / 2 - 1 < (l.insertionSort (· ≤ ·)).length := by rw [hslen]; omega
    have hidx2 : l.length / 2 < (l.insertionSort (· ≤ ·)).length := by rw [hslen]; omega
    rw [List.getD_eq_get _ _ hidx1, List.getD_eq_get _ _ hidx2]
    have ha := hsall _ (List.get_mem _ _ hidx1)
    have hb := hsall _ (List.get_mem _ _ hidx2)
    linarith

lemma runningBest_label_bounds (cmp : ℚ → ℚ → Bool) (init : ℚ) (f : Nat → ℚ)
    (h : cmp (f 0) init = true) :
    0 ≤ (runningBest cmp init ((List.range NUM_CLASSES).map f)).2 ∧
    (runningBest cmp init ((List.range NUM_CLASSES).map f)).2 < ((NUM_CLASSES : Nat) : Int) := by
  have hsplit : (List.range NUM_CLASSES).map f = f 0 :: (List.range' 1 9).map f := by
    rw [show List.range NUM_CLASSES = 0 :: List.range' 1 9 from rfl, List.map_cons]
  rw [hsplit]
  have hb := runningBest_label_of_head cmp init (f 0) ((List.range' 1 9).map f) h
  have hlen : ((List.range' 1 9).map f).length = 9 := by simp
  rw [hlen] at hb
  refine ⟨hb.1, ?_⟩
  have h2 := hb.2
  simp only [NUM_CLASSES]
  omega

example : runningBest cmpLt 999 valsMinEx = (1/10, 0) := by
  norm_num [runningBest, runningBestFrom, cmpLt, valsMinEx]

example : runningBest cmpLt 999 valsMeanEx = (3/20, 1) := by
  norm_num [runningBest, runningBestFrom, cmpLt, valsMeanEx]

lemma agg_label_bounds (cmp : ℚ → ℚ → Bool) (init : ℚ) (f : Nat → ℚ) (labv : Int)
    (hL : labv = (runningBest cmp init ((List.range NUM_CLASSES).map f)).2)
    (hc : cmp (f 0) init = true) :
    0 ≤ labv ∧ labv < ((NUM_CLASSES : Nat) : Int) := by
  rw [hL]
  exact runningBest_label_bounds cmp init f hc

lemma runningBest_const_sentinel (vals : List ℚ) (init : ℚ)
    (hall : ∀ k, k < vals.length → vals.getD k 0 = init) :
    (runningBest cmpLt init vals).2 = -1 := by
  rcases rbf_lt_inv vals (init, -1) 0 with ⟨heq, _⟩ | ⟨k, hk, heq, hlt, _, _⟩
  · rw [runningBest, heq]
  · exfalso
    rw [hall k hk] at hlt
    exact lt_irrefl _ hlt

/-- C5: the aggregation classifier's three policies are independent — each
of the MIN/MEDIAN/MEAN running bests of `classifyAgg` equals the running best
of its own per-class aggregate list; under either strict comparison the
recorded label, when it is a real class `k`, carries the best aggregate value,
beats the sentinel, is extremal among all classes, and is strictly better than
every earlier class (so ties keep the lowest index); and on the spec's
examples the MIN policy over `{0.1, 0.4, 0.9}` picks class 0 with value `0.1`
while the mean policy over `{0.2, 0.15, 0.3}` picks class 1 with value `0.15`. -/
theorem spec_C5 :
    (∀ (cmp : ℚ → ℚ → Bool) (init : ℚ) (preds : Nat → List ℚ),
      ((classifyAgg cmp init preds).minV, (classifyAgg cmp init preds).minL)
          = runningBest cmp init (minAggList preds) ∧
      ((classifyAgg cmp init preds).medV, (classifyAgg cmp init preds).medL)
          = runningBest cmp init (medAggList preds) ∧
      ((classifyAgg cmp init preds).meanV, (classifyAgg cmp init preds).meanL)
          = runningBest cmp init (meanAggList preds)) ∧
    (∀ (init : ℚ) (vals : List ℚ) (k : Nat), k < vals.length →
      (runningBest cmpLt init vals).2 = (k : Int) →
      (runningBest cmpLt init vals).1 = vals.getD k 0 ∧
      vals.getD k 0 < init ∧
      (∀ j, j < vals.length → vals.getD k 0 ≤ vals.getD j 0) ∧
      (∀ j, j < k → vals.getD k 0 < vals.getD j 0)) ∧
    (∀ (init : ℚ) (vals : List ℚ) (k : Nat), k < vals.length →
      (runningBest cmpGt init vals).2 = (k : Int) →
      (runningBest cmpGt init vals).1 = vals.getD k 0 ∧
      init < vals.getD k 0 ∧
      (∀ j, j < vals.length → vals.getD j 0 ≤ vals.getD k 0) ∧
      (∀ j, j < k → vals.getD j 0 < vals.getD k 0)) ∧
    runningBest cmpLt 999 valsMinEx = (1/10, 0) ∧
    runningBest cmpLt 999 valsMeanEx = (3/20, 1) := by
  refine ⟨?_, ?_, ?_, ?_, ?_⟩
  · intro cmp init preds
    exact ⟨classifyAgg_min cmp init preds, classifyAgg_med cmp init preds,
      classifyAgg_mean cmp init preds⟩
  · intro init vals k hk h
    exact runningBest_lt_spec init vals k hk h
  · intro init vals k hk h
    exact runningBest_gt_spec init vals k hk h
  · norm_num [runningBest, runningBestFrom, cmpLt, valsMinEx]
  · norm_num [runningBest, runningBestFrom, cmpLt, valsMeanEx]

/-- C5 witness: concrete instantiation of the tie-break/extremal rules on the
spec's mean-policy example under both conventions. -/
theorem spec_C5_witness :
    (runningBest cmpLt 999 valsMeanEx).1 = valsMeanEx.getD 1 0 ∧
    valsMeanEx.getD 1 0 < 999 ∧
    (runningBest cmpGt (-999) valsMeanEx).1 = valsMeanEx.getD 2 0 ∧
    -999 < valsMeanEx.getD 2 0 := by
  have h2 := spec_C5.2.1 999 valsMeanEx 1 (by norm_num [valsMeanEx])
    (by norm_num [runningBest, runningBestFrom, cmpLt, valsMeanEx])
  have h3 := spec_C5.2.2.1 (-999) valsMeanEx 2 (by norm_num [valsMeanEx])
    (by norm_num [runningBest, runningBestFrom, cmpGt, valsMeanEx])
  exact ⟨h2.1, h2.2.1, h3.1, h3.2.1⟩
/-- C8 counterexample: with one reference pair per class all scoring exactly
`999` (the distance-convention sentinel), every per-class aggregate equals the
sentinel, the strict comparison `new < prev` never fires, and all three
predicted labels remain the invalid class marker `-1` even though every class
contributed a scored reference pair — refuting the claim that the sentinel is
guaranteed to be beaten by any real score. -/
theorem spec_C8_counterexample :
    (∀ d, d < NUM_CLASSES → preds999 d ≠ []) ∧
    (classifyAgg cmpLt 999 preds999).minL = -1 ∧
    (classifyAgg cmpLt 999 preds999).medL = -1 ∧
    (classifyAgg cmpLt 999 preds999).meanL = -1 := by
  have hmed : npMedian [(999 : ℚ)] = 999 := rfl
  have hmean : npMean [(999 : ℚ)] = 999 := by norm_num [npMean]
  refine ⟨fun d _ => by simp [preds999], ?_, ?_, ?_⟩
  · have hL : (classifyAgg cmpLt 999 preds999).minL
        = (runningBest cmpLt 999 (minAggList preds999)).2 :=
      congrArg Prod.snd (classifyAgg_min cmpLt 999 preds999)
    rw [hL]
    apply runningBest_const_sentinel
    intro k hk
    rw [minAggList] at hk ⊢
    simp only [List.length_map, List.length_range] at hk
    rw [map_range_getD _ _ _ _ hk]
    rfl
  · have hL : (classifyAgg cmpLt 999 preds999).medL
        = (runningBest cmpLt 999 (medAggList preds999)).2 :=
      congrArg Prod.snd (classifyAgg_med cmpLt 999 preds999)
    rw [hL]
    apply runningBest_const_sentinel
    intro k hk
    rw [medAggList] at hk ⊢
    simp only [List.length_map, List.length_range] at hk
    rw [map_range_getD _ _ _ _ hk]
    exact hmed
  · have hL : (classifyAgg cmpLt 999 preds999).meanL
        = (runningBest cmpLt 999 (meanAggList preds999)).2 :=
      congrArg Prod.snd (classifyAgg_mean cmpLt 999 preds999)
    rw [hL]
    apply runningBest_const_sentinel
    intro k hk
    rw [meanAggList] at hk ⊢
    simp only [List.length_map, List.length_range] at hk
    rw [map_range_getD _ _ _ _ hk]
    exact hmean

set_option maxRecDepth 4000 in
/-- C8 amended: for every query, if each class contributes at least one
scored reference pair and every score strictly beats the sentinel (`< 999`
under the distance convention, `> -999` under the probability convention),
then the three per-policy predicted labels are real classes in
`[0, NUM_CLASSES - 1]` and never the invalid marker `-1`. -/
theorem spec_C8_amended (preds : Nat → List ℚ)
    (hne : ∀ d, d < NUM_CLASSES → preds d ≠ []) :
    ((∀ d, d < NUM_CLASSES → ∀ s ∈ preds d, s < 999) →
      (0 ≤ (classifyAgg cmpLt 999 preds).minL ∧
        (classifyAgg cmpLt 999 preds).minL < ((NUM_CLASSES : Nat) : Int)) ∧
      (0 ≤ (classifyAgg cmpLt 999 preds).medL ∧
        (classifyAgg cmpLt 999 preds).medL < ((NUM_CLASSES : Nat) : Int)) ∧
      (0 ≤ (classifyAgg cmpLt 999 preds).meanL ∧
        (classifyAgg cmpLt 999 preds).meanL < ((NUM_CLASSES : Nat) : Int))) ∧
    ((∀ d, d < NUM_CLASSES → ∀ s ∈ preds d, -999 < s) →
      (0 ≤ (classifyAgg cmpGt (-999) preds).minL ∧
        (classifyAgg cmpGt (-999) preds).minL < ((NUM_CLASSES : Nat) : Int)) ∧
      (0 ≤ (classifyAgg cmpGt (-999) preds).medL ∧
        (classifyAgg cmpGt (-999) preds).medL < ((NUM_CLASSES : Nat) : Int)) ∧
      (0 ≤ (classifyAgg cmpGt (-999) preds).meanL ∧
        (classifyAgg cmpGt (-999) preds).meanL < ((NUM_CLASSES : Nat) : Int))) := by
  have h010 : (0 : Nat) < NUM_CLASSES := by norm_num [NUM_CLASSES]
  have h0 := hne 0 h010
  constructor
  · intro hall
    have hbnd := hall 0 h010
    refine ⟨?_, ?_, ?_⟩
    · refine agg_label_bounds cmpLt 999 (fun d => npMin (preds d)) _
        (congrArg Prod.snd (classifyAgg_min cmpLt 999 preds)) ?_
      exact decide_eq_true (hbnd _ (npMin_mem (preds 0) h0))
    · refine agg_label_bounds cmpLt 999 (fun d => npMedian (preds d)) _
        (congrArg Prod.snd (classifyAgg_med cmpLt 999 preds)) ?_
      exact decide_eq_true (npMedian_lt_of_forall (preds 0) 999 h0 hbnd)
    · refine agg_label_bounds cmpLt 999 (fun d => npMean (preds d)) _
        (congrArg Prod.snd (classifyAgg_mean cmpLt 999 preds)) ?_
      exact decide_eq_true (npMean_lt_of_forall (preds 0) 999 h0 hbnd)
  · intro hall
    have hbnd := hall 0 h010
    refine ⟨?_, ?_, ?_⟩
    · refine agg_label_bounds cmpGt (-999) (fun d => npMin (preds d)) _
        (congrArg Prod.snd (classifyAgg_min cmpGt (-999) preds)) ?_
      exact decide_eq_true (hbnd _ (npMin_mem (preds 0) h0))
    · refine agg_label_bounds cmpGt (-999) (fun d => npMedian (preds d)) _
        (congrArg Prod.snd (classifyAgg_med cmpGt (-999) preds)) ?_
      exact decide_eq_true (npMedian_gt_of_forall (preds 0) (-999) h0 hbnd)
    · refine agg_label_bounds cmpGt (-999) (fun d => npMean (preds d)) _
        (congrArg Prod.snd (classifyAgg_mean cmpGt (-999) preds)) ?_
      exact decide_eq_true (npMean_gt_of_forall (preds 0) (-999) h0 hbnd)


/-- C8 witness: with one reference pair per class scoring `1/2`, the scores
beat both sentinels and all six predicted labels are real classes. -/
theorem spec_C8_witness :
    ((0 ≤ (classifyAgg cmpLt 999 predsHalf).minL ∧
        (classifyAgg cmpLt 999 predsHalf).minL < ((NUM_CLASSES : Nat) : Int)) ∧
      (0 ≤ (classifyAgg cmpLt 999 predsHalf).medL ∧
        (classifyAgg cmpLt 999 predsHalf).medL < ((NUM_CLASSES : Nat) : Int)) ∧
      (0 ≤ (classifyAgg cmpLt 999 predsHalf).meanL ∧
        (classifyAgg cmpLt 999 predsHalf).meanL < ((NUM_CLASSES : Nat) : Int))) ∧
    ((0 ≤ (classifyAgg cmpGt (-999) predsHalf).minL ∧
        (classifyAgg cmpGt (-999) predsHalf).minL < ((NUM_CLASSES : Nat) : Int)) ∧
      (0 ≤ (classifyAgg cmpGt (-999) predsHalf).medL ∧
        (classifyAgg cmpGt (-999) predsHalf).medL < ((NUM_CLASSES : Nat) : Int)) ∧
      (0 ≤ (classifyAgg cmpGt (-999) predsHalf).meanL ∧
        (classifyAgg cmpGt (-999) predsHalf).meanL < ((NUM_CLASSES : Nat) : Int))) := by
  have h := spec_C8_amended predsHalf (fun d _ => by simp [predsHalf])
  constructor
  · refine h.1 ?_
    intro d _ s hs
    simp only [predsHalf, List.mem_singleton] at hs
    subst hs
    norm_num
  · refine h.2 ?_
    intro d _ s hs
    simp only [predsHalf, List.mem_singleton] at hs
    subst hs
    norm_num

/-- C9: an unrecognized model identifier (anything other than `simple_head` /
`dense_head`) or, for a recognized model, an unrecognized base-network
identifier (anything other than `nn` / `cnn` / `fcn`) makes model selection
raise the corresponding fatal exception, and `main` then performs none of its
subsequent actions — in particular no `model.fit` call; conversely any run
that reaches an action list passed a successful model construction. -/
theorem spec_C9 (model base_network : String) (min_epochs : Nat) :
    ((model ≠ "simple_head" ∧ model ≠ "dense_head") →
      selectModel model base_network = Except.error "Unknown model type." ∧
      mainActions model base_network min_epochs = Except.error "Unknown model type.") ∧
    ((model = "simple_head" ∨ model = "dense_head") →
      (base_network ≠ "nn" ∧ base_network ≠ "cnn" ∧ base_network ≠ "fcn") →
      selectModel model base_network = Except.error "Unknown base network model type." ∧
      mainActions model base_network min_epochs
        = Except.error "Unknown base network model type.") ∧
    (∀ acts, mainActions model base_network min_epochs = Except.ok acts →
      ∃ m, selectModel model base_network = Except.ok m) := by
  refine ⟨?_, ?_, ?_⟩
  · rintro ⟨h1, h2⟩
    have hsel : selectModel model base_network = Except.error "Unknown model type." := by
      rw [selectModel, if_neg h1, if_neg h2]
    exact ⟨hsel, by rw [mainActions, hsel]⟩
  · rintro hm ⟨hb1, hb2, hb3⟩
    have hsel : selectModel model base_network
        = Except.error "Unknown base network model type." := by
      rcases hm with rfl | rfl
      · rw [selectModel, if_pos rfl, create_simple_siamese_model,
          if_neg hb1, if_neg hb2, if_neg hb3]
      · rw [selectModel, if_neg (by decide), if_pos rfl, create_dense_siamese_model,
          if_neg hb1, if_neg hb2, if_neg hb3]
    exact ⟨hsel, by rw [mainActions, hsel]⟩
  · intro acts hok
    rw [mainActions] at hok
    rcases hsel : selectModel model base_network with e | m
    · rw [hsel] at hok; cases hok
    · exact ⟨m, rfl⟩

/-- C9 witness: the unknown model identifier `transformer` and the unknown
base-network identifier `resnet` each abort selection with the matching
message before any action runs. -/
theorem spec_C9_witness :
    (selectModel "transformer" "cnn" = Except.error "Unknown model type." ∧
      mainActions "transformer" "cnn" 0 = Except.error "Unknown model type.") ∧
    (selectModel "simple_head" "resnet" = Except.error "Unknown base network model type." ∧
      mainActions "simple_head" "resnet" 0
        = Except.error "Unknown base network model type.") :=
  ⟨(spec_C9 "transformer" "cnn" 0).1 ⟨by decide, by decide⟩,
    (spec_C9 "simple_head" "resnet" 0).2.1 (Or.inl rfl) ⟨by decide, by decide, by decide⟩⟩
